import Mathlib

/-!
Verification development for the asynchronous import-job orchestrator of the
`models.rs` repository (`src/model-server/src/import.rs`, with the API types
from `src/model-server/src/api_types.rs` and the HTTP handler from
`src/model-server/src/router/imports.rs`).

Shallow embedding conventions:
* `uuid::Uuid` (16 random bytes) is modelled as `Nat`; the random generator
  `Uuid::new_v4` is modelled as a stream `uuidSource : Nat → ImportJobId`
  from which each submission draws the next value.
* `PathBuf` is modelled as its textual representation (paths are assumed to
  be valid UTF-8, so `OsString::into_string` and `Path::to_str` succeed on
  every path we model); `Path::file_name` is computed by Rust's rules
  (last normal component; `None` for a root path, an empty path, or a path
  ending in `..`).
* A Rust panic (`unwrap` on `None`/`Err`) is modelled as an explicit
  `Option String` panic outcome; a panicking Tokio task stops executing but
  the process survives.
* `f32` progress values are modelled as `Rat` (the only value the code ever
  sends is `0.0`).
* External collaborators are oracle parameters: the fetch of the `hf_hub`
  API is `fetchHF : HFLocator → Except String PathBuf`, and the database
  write `DB::register_model` (fallible: sqlite errors) is
  `db : RegisterModelRequest → Except String Unit` (the returned model id is
  discarded by the caller).
-/

namespace ModelServer

/-- Model of `uuid::Uuid` (`pub type ImportJobId = uuid::Uuid`): an opaque
128-bit value, modelled as `Nat`. -/
abbrev ImportJobId := Nat

/-- Model of Rust `PathBuf`, by its textual representation (assumed UTF-8). -/
structure PathBuf where
  repr : String
deriving DecidableEq, Repr

/-- Split a character list at `/` separators (the behaviour of
`String.splitOn "/"`, written with structural recursion so that concrete
paths reduce definitionally).  `acc` holds the current component reversed. -/
def splitSlash : List Char → List Char → List String
  | [], acc => [String.mk acc.reverse]
  | c :: rest, acc =>
    if c = '/' then String.mk acc.reverse :: splitSlash rest []
    else splitSlash rest (c :: acc)

/-- The components of a path, Rust-style: split on `/`, dropping empty
components and `.` components (`..` components are kept). -/
def PathBuf.components (p : PathBuf) : List String :=
  (splitSlash p.repr.data []).filter (fun c => c ≠ "" ∧ c ≠ ".")

/-- Model of `Path::file_name()` (composed with
`OsString::into_string`, which succeeds under the UTF-8 assumption):
the last component, unless the path ends in `..` or has no components. -/
def PathBuf.fileName (p : PathBuf) : Option String :=
  match p.components.getLast? with
  | none => none
  | some c => if c = ".." then none else some c

/-- Model of `Path::to_str()`: always succeeds under the UTF-8 assumption. -/
def PathBuf.toStr (p : PathBuf) : Option String :=
  some p.repr

/-- `api_types.rs`: `pub struct HFLocator { pub repo: String, pub file: PathBuf }`. -/
structure HFLocator where
  repo : String
  file : PathBuf
deriving DecidableEq, Repr

/-- `api_types.rs`: `pub struct DiskLocator { pub path: PathBuf }`. -/
structure DiskLocator where
  path : PathBuf
deriving DecidableEq, Repr

/-- `api_types.rs`: `pub enum Locator { HF(HFLocator), DISK(DiskLocator) }`. -/
inductive Locator
  | HF (locator : HFLocator)
  | DISK (locator : DiskLocator)
deriving DecidableEq, Repr

/-- `api_types.rs`: `pub enum ImportJob { HF { locator }, DISK { locator } }`. -/
inductive ImportJob
  | HF (locator : HFLocator)
  | DISK (locator : DiskLocator)
deriving DecidableEq, Repr

/-- `api_types.rs`: `pub enum ImportJobStatus { Queued, InProgress { progress },
Completed { info }, Failed { error } }`; `progress : f32` modelled as `Rat`. -/
inductive ImportJobStatus
  | Queued
  | InProgress (progress : Rat)
  | Completed (info : Option String)
  | Failed (error : Option String)
deriving DecidableEq, Repr

/-- `api_types.rs`: `pub enum ImportSource { HF(HFLocator), DISK(DiskLocator) }`. -/
inductive ImportSource
  | HF (source : HFLocator)
  | DISK (source : DiskLocator)
deriving DecidableEq, Repr

/-- `api_types.rs`: `ModelType` (single variant `Completion`). -/
inductive ModelType
  | Completion
deriving DecidableEq, Repr

/-- `api_types.rs`: `Runtime` (single variant `Ggml`). -/
inductive Runtime
  | Ggml
deriving DecidableEq, Repr

/-- The request the status-apply loop assembles for `db.register_model`
(`import.rs` lines 90-113): version `0.1.0`, the import source derived from
the job's locator, the model name derived from the locator's file name, and
the completion-info path.  The `imported_at` wall-clock timestamp is outside
the model (it does not influence any behaviour we verify). -/
structure RegisterModelRequest where
  version : Nat × Nat × Nat
  source : ImportSource
  model : String
  model_type : ModelType
  runtime : Runtime
  model_path : String
deriving DecidableEq, Repr

/-- `import.rs`: `struct JobEntry { task: ImportJob, status: ImportJobStatus }`. -/
structure JobEntry where
  task : ImportJob
  status : ImportJobStatus
deriving DecidableEq, Repr

/-- `import.rs`: `enum Message { UpdateStatus { job, status } }`. -/
inductive Message
  | UpdateStatus (job : ImportJobId) (status : ImportJobStatus)
deriving DecidableEq, Repr

/-- The job id a message targets. -/
def Message.job : Message → ImportJobId
  | .UpdateStatus j _ => j

/-- The status a message carries. -/
def Message.newStatus : Message → ImportJobStatus
  | .UpdateStatus _ s => s

/-- Model of the `HashMap<ImportJobId, JobEntry>` job table, as an
association list whose keys are unique by construction
(`tableInsert` replaces, like `HashMap::insert`). -/
abbrev Table := List (ImportJobId × JobEntry)

/-- Lookup in the job table (model of `HashMap::get` / `get_mut`). -/
def tlookup (t : Table) (id : ImportJobId) : Option JobEntry :=
  match t with
  | [] => none
  | kv :: rest => if kv.1 = id then some kv.2 else tlookup rest id

/-- Model of `HashMap::insert`: replaces any existing entry for `id`. -/
def tableInsert (t : Table) (id : ImportJobId) (e : JobEntry) : Table :=
  (id, e) :: t.filter (fun kv => kv.1 ≠ id)

/-- In-place mutation of one entry's `status` field
(`entry.status = status.clone()` under `get_mut`). -/
def setStatus (t : Table) (id : ImportJobId) (st : ImportJobStatus) : Table :=
  t.map (fun kv => if kv.1 = id then (kv.1, { kv.2 with status := st }) else kv)

/-- The locator file name the status-apply loop extracts
(`import.rs` lines 66-81): `locator.path.file_name().unwrap().into_string().unwrap()`
for disk jobs, `locator.file.file_name().unwrap().into_string().unwrap()` for
HF jobs — before the `unwrap`s, an `Option`. -/
def jobFileName : ImportJob → Option String
  | .DISK locator => locator.path.fileName
  | .HF locator => locator.file.fileName

/-- The `ImportSource` the status-apply loop derives from the job
(`import.rs` lines 95-103). -/
def jobSource : ImportJob → ImportSource
  | .HF locator => .HF locator
  | .DISK locator => .DISK locator

/-- Oracle type for `DB::register_model` (fallible sqlite write; the model id
it returns on success is discarded by the `unwrap()` call site). -/
abbrev DBOracle := RegisterModelRequest → Except String Unit

/-- One iteration of the status-apply loop body (`import.rs` lines 51-117),
handling one `Message::UpdateStatus`:
1. `table.get_mut(&job).unwrap()` — panics (table unchanged) if the job id is
   not in the table;
2. `entry.status = status.clone()` — the status is written to the table;
3. the locator file name is computed for **every** message, with
   `file_name().unwrap().into_string().unwrap()` — panics (after the status
   write) if the locator path has no file name;
4. if the status is `Completed { info }`, a `RegisterModelRequest` is built
   (`PathBuf::from(info.unwrap())` — panics if `info` is `None`) and
   `db.register_model(...).await.unwrap()` — panics if the registry write
   fails.
Returns the table after the step together with the panic, if one occurred. -/
def applyMessage (db : DBOracle) (table : Table) : Message → Table × Option String
  | .UpdateStatus job status =>
    match tlookup table job with
    | none => (table, some "called Option::unwrap on a None value")
    | some entry =>
      let table1 := setStatus table job status
      let job_def := entry.task
      match jobFileName job_def with
      | none => (table1, some "called Option::unwrap on a None value")
      | some file_name =>
        match status with
        | .Completed info =>
          match info with
          | none => (table1, some "called Option::unwrap on a None value")
          | some p =>
            match db { version := (0, 1, 0)
                       source := jobSource job_def
                       model := file_name
                       model_type := .Completion
                       runtime := .Ggml
                       model_path := p } with
            | .error e => (table1, some e)
            | .ok _ => (table1, none)
        | _ => (table1, none)

/-- The status-apply loop over a sequence of received messages
(`while let Some(msg) = receiver.recv().await` in `InMemoryImporter::new`):
messages are handled in order; a panic kills the spawned task, so the
remaining messages are never processed.  Returns the final table and the
panic that stopped the loop, if any. -/
def runLoop (db : DBOracle) (table : Table) : List Message → Table × Option String
  | [] => (table, none)
  | m :: rest =>
    match applyMessage db table m with
    | (t, some e) => (t, some e)
    | (t, none) => runLoop db t rest

/-- `import.rs`: `import_disk` — logs "Doing nothing here" and returns
`locator.path.clone()`; it consults nothing (in particular not the
filesystem) and cannot fail. -/
def import_disk (locator : DiskLocator) : PathBuf :=
  locator.path

/-- Oracle type for the external `hf_hub` fetch
(`Api::new().repo(...).get(...).await`). -/
abbrev FetchOracle := HFLocator → Except String PathBuf

/-- `import.rs`: `import_hf` — calls the hub API and `unwrap`s the result, so
a fetch error is a panic, not a returned error.  We return the fetched path
or the panic. -/
def import_hf (fetchHF : FetchOracle) (locator : HFLocator) : Except String PathBuf :=
  match locator.file.toStr with
  | none => .error "called Option::unwrap on a None value"
  | some _ => fetchHF locator

/-- `import.rs`: `do_import` — the worker for one job.  It sends
`InProgress { progress: 0.0 }`, runs the fetch for its locator variant, and
sends `Completed { info: download_path.to_str().map(...) }`.  A panicking
fetch (`import_hf` on a fetch error) kills the worker task after only the
`InProgress` message.  Returns the messages actually sent on the channel, in
order, together with the worker's panic if one occurred.  (The `send` calls
themselves can only fail once the receiver is dropped, which never happens
while the orchestrator lives; the channel being bounded only delays sends.) -/
def do_import (fetchHF : FetchOracle) (task_id : ImportJobId) (task : ImportJob) :
    List Message × Option String :=
  let ip := Message.UpdateStatus task_id (.InProgress 0)
  match task with
  | .DISK locator =>
    let download_path := import_disk locator
    ([ip, .UpdateStatus task_id (.Completed download_path.toStr)], none)
  | .HF locator =>
    match import_hf fetchHF locator with
    | .error e => ([ip], some e)
    | .ok download_path =>
      ([ip, .UpdateStatus task_id (.Completed download_path.toStr)], none)

/-- `InMemoryImporter::start_import` (`import.rs` lines 128-147): draws a
fresh uuid, inserts `JobEntry { task, status: Queued }` into the job table,
spawns `do_import` bound to the id and task, and returns `Ok(task_id)`.  The
function has no failure path, and the insert happens before the worker is
spawned and before the id is returned.  `uuid` is the value drawn from the
generator; the returned triple is (result, table after the insert, spawned
worker's (id, task)). -/
def start_import (uuid : ImportJobId) (table : Table) (task : ImportJob) :
    Except String ImportJobId × Table × (ImportJobId × ImportJob) :=
  let task_id := uuid
  let table1 := tableInsert table task_id { task := task, status := .Queued }
  (.ok task_id, table1, (task_id, task))

/-- `InMemoryImporter::get_import_status` (`import.rs` lines 149-157): a read
of the current table; returns the stored status, or the error
`anyhow!("oopsie, no data")` when the id has no entry. -/
def get_import_status (table : Table) (task_id : ImportJobId) :
    Except String ImportJobStatus :=
  match tlookup table task_id with
  | some value => .ok value.status
  | none => .error "oopsie, no data"

/-- `InMemoryImporter::get_all_job_status` (`import.rs` lines 159-167):
copies the table into a fresh map from id to status. -/
def get_all_job_status (table : Table) : List (ImportJobId × ImportJobStatus) :=
  table.map (fun kv => (kv.1, kv.2.status))

/-- `router/imports.rs`: `import_model` — converts the posted `Locator` into
an `ImportJob`, calls `start_import`, and `unwrap`s the result (a panic if it
were an error; the `map_err` to `INTERNAL_SERVER_ERROR` is commented out in
the source).  Returns the job id serialized in the response, the new table
and the spawned worker, or a panic. -/
def import_model (uuid : ImportJobId) (table : Table) (locator : Locator) :
    Except String (ImportJobId × Table × (ImportJobId × ImportJob)) :=
  let import_job : ImportJob :=
    match locator with
    | .DISK disk_locator => .DISK disk_locator
    | .HF hf_locator => .HF hf_locator
  match start_import uuid table import_job with
  | (.ok job_id, table1, spawned) => .ok (job_id, table1, spawned)
  | (.error _, _, _) => .error "called Result::unwrap on an Err value"

/-! ## System model

The orchestrator's externally driven behaviour: an interleaving of
submissions (`start_import` calls) and message deliveries to the
status-apply loop.  Submissions draw ids from the uuid stream; a panic in
the spawned status-apply task (`dead`) stops all further message
processing but leaves the rest of the process (submissions, reads) alive.
`issued` records the ids returned by submissions, in order; `applied` is a
history variable recording the messages whose status write reached the
table (the `get_mut` succeeded), in processing order. -/

/-- An externally observable step of the orchestrator. -/
inductive Op
  | submit (task : ImportJob)
  | deliver (msg : Message)

/-- The orchestrator's state: job table, count of uuids drawn, whether the
status-apply task has panicked, ids issued so far, and the history of
applied status writes. -/
structure SysState where
  table : Table
  drawn : Nat
  dead : Bool
  issued : List ImportJobId
  applied : List Message

/-- The initial orchestrator state (`InMemoryImporter::new`). -/
def initState : SysState :=
  { table := [], drawn := 0, dead := false, issued := [], applied := [] }

/-- One orchestrator step: a submission runs `start_import` with the next
uuid from the stream; a delivery is processed by the status-apply loop
unless that task has already panicked. -/
def sysStep (uuidSource : Nat → ImportJobId) (db : DBOracle) (s : SysState) :
    Op → SysState
  | .submit task =>
    let r := start_import (uuidSource s.drawn) s.table task
    { table := r.2.1, drawn := s.drawn + 1, dead := s.dead,
      issued := s.issued ++ [uuidSource s.drawn], applied := s.applied }
  | .deliver msg =>
    if s.dead then s
    else
      let r := applyMessage db s.table msg
      { table := r.1, drawn := s.drawn, dead := r.2.isSome,
        issued := s.issued,
        applied :=
          if (tlookup s.table msg.job).isSome then s.applied ++ [msg]
          else s.applied }

/-- Run a sequence of orchestrator steps. -/
def sysRun (uuidSource : Nat → ImportJobId) (db : DBOracle) (s : SysState)
    (ops : List Op) : SysState :=
  ops.foldl (sysStep uuidSource db) s

/-- A status is terminal when it is `Completed` or `Failed`. -/
def ImportJobStatus.isTerminal : ImportJobStatus → Bool
  | .Completed _ => true
  | .Failed _ => true
  | _ => false

/-- Recognizer for the `Failed` variant. -/
def ImportJobStatus.isFailed : ImportJobStatus → Bool
  | .Failed _ => true
  | _ => false

/-- The position of a status in the lifecycle order
`Queued → InProgress → {Completed | Failed}`. -/
def statusRank : ImportJobStatus → Nat
  | .Queued => 0
  | .InProgress _ => 1
  | .Completed _ => 2
  | .Failed _ => 2

/-- A registry oracle whose writes always succeed. -/
def dbOkAlways : DBOracle := fun _ => .ok ()

/-- A registry oracle whose writes always fail. -/
def dbFailAlways : DBOracle := fun _ => .error "db write failed"

/-- An id has an entry in the table exactly when it was issued by a
submission. -/
def TableIssuedInv (s : SysState) : Prop :=
  ∀ j, (tlookup s.table j).isSome ↔ j ∈ s.issued

/-- The issued ids are exactly the uuid stream over the drawn range, in
order. -/
def IssuedRangeInv (u : Nat → ImportJobId) (s : SysState) : Prop :=
  s.issued = (List.range s.drawn).map u

/-- Every id present in the table was produced by an already-consumed
position of the uuid stream. -/
def KeysDrawnInv (u : Nat → ImportJobId) (s : SysState) : Prop :=
  ∀ j, (tlookup s.table j).isSome → ∃ k, k < s.drawn ∧ u k = j

/-- The submitted tasks of an operation sequence, in order. -/
def submits (ops : List Op) : List ImportJob :=
  ops.filterMap (fun op => match op with | .submit t => some t | .deliver _ => none)

/-- The delivered messages of an operation sequence, in order. -/
def delivers (ops : List Op) : List Message :=
  ops.filterMap (fun op => match op with | .submit _ => none | .deliver m => some m)

/-- `Leads l₁ l₂`: `l₁` is a leading segment of `l₂` (the mpsc channel and
each worker preserve per-sender emission order, so at any moment the
messages consumed for one job are a leading segment of that job's worker
output). -/
def Leads {α : Type _} (l₁ l₂ : List α) : Prop := ∃ t, l₁ ++ t = l₂

/-- The `k`-th submitted task (arbitrary default beyond the end). -/
def taskAt (tasks : List ImportJob) (k : Nat) : ImportJob :=
  tasks.getD k (.DISK { path := { repr := "" } })

/-- The last status of a list of applied updates; `Queued` (the status a
submission installs) if no update has been applied. -/
def lastStatus : List ImportJobStatus → ImportJobStatus
  | [] => .Queued
  | [s] => s
  | _ :: s :: rest => lastStatus (s :: rest)

/-- The trace invariant after `n` operations: the number of drawn uuids is
the number of submissions; the applied messages are a leading segment of
the delivered ones (all of them while the status-apply task is alive);
every applied message targets a drawn id; and the entry of the `k`-th
submitted job holds its submitted task and the status of the last applied
update for its id (`Queued` if none). -/
def TraceInv (u : Nat → ImportJobId) (ops : List Op) (n : Nat) (s : SysState) : Prop :=
  s.drawn = (submits (ops.take n)).length ∧
  Leads s.applied (delivers (ops.take n)) ∧
  (s.dead = false → s.applied = delivers (ops.take n)) ∧
  (∀ m ∈ s.applied, ∃ k, k < s.drawn ∧ m.job = u k) ∧
  (∀ k, k < s.drawn →
    tlookup s.table (u k) =
      some { task := taskAt (submits ops) k,
             status := lastStatus
               ((s.applied.filter (fun m => m.job = u k)).map Message.newStatus) })

/-! ## Basic table lemmas -/

theorem tlookup_setStatus (t : Table) (id j : ImportJobId) (st : ImportJobStatus) :
    tlookup (setStatus t id st) j =
      if j = id then (tlookup t j).map (fun e => { e with status := st })
      else tlookup t j := by
  induction t with
  | nil => simp [setStatus, tlookup]
  | cons kv rest ih =>
    simp only [setStatus, List.map_cons] at ih ⊢
    by_cases hk : kv.1 = id
    · by_cases hj : j = id
      · subst hj
        simp [tlookup, hk, ih]
      · have hkj : kv.1 ≠ j := fun hc => hj (hk ▸ hc ▸ rfl)
        have hij : id ≠ j := fun hc => hj hc.symm
        simp [tlookup, hk, hkj, ih, hj, hij]
    · by_cases hkj : kv.1 = j
      · have hj : j ≠ id := fun hc => hk (hkj ▸ hc)
        simp [tlookup, hk, hkj, ih, hj]
      · simp [tlookup, hk, hkj, ih]

theorem tlookup_filter_ne (t : Table) (id j : ImportJobId) (h : j ≠ id) :
    tlookup (t.filter (fun kv => kv.1 ≠ id)) j = tlookup t j := by
  induction t with
  | nil => rfl
  | cons kv rest ih =>
    by_cases hk : kv.1 = id
    · have hkj : kv.1 ≠ j := fun hc => h ((hc ▸ hk : j = id))
      rw [List.filter_cons_of_neg (by simp [hk])]
      rw [ih]
      simp [tlookup, hkj]
    · rw [List.filter_cons_of_pos (by simp [hk])]
      simp only [tlookup]
      split
      · rfl
      · exact ih

theorem tlookup_tableInsert (t : Table) (id j : ImportJobId) (e : JobEntry) :
    tlookup (tableInsert t id e) j = if j = id then some e else tlookup t j := by
  by_cases h : j = id
  · subst h
    simp [tableInsert, tlookup]
  · have h2 : id ≠ j := fun hc => h hc.symm
    simp only [tableInsert, tlookup, h2, if_false, if_neg h]
    exact tlookup_filter_ne t id j h

theorem applyMessage_fst (db : DBOracle) (t : Table) (m : Message) :
    (applyMessage db t m).1 =
      match tlookup t m.job with
      | none => t
      | some _ => setStatus t m.job m.newStatus := by
  cases m with
  | UpdateStatus job status =>
    simp only [applyMessage, Message.job, Message.newStatus]
    cases htl : tlookup t job with
    | none => rfl
    | some entry =>
      simp only []
      (repeat' split) <;> rfl

/-- The set of ids present in the table is preserved or extended by every
step, and the `task` field of an existing entry is never changed by a
delivery. -/
theorem sysStep_tlookup_isSome (uuidSource : Nat → ImportJobId) (db : DBOracle)
    (s : SysState) (op : Op) (j : ImportJobId)
    (h : (tlookup s.table j).isSome) :
    (tlookup (sysStep uuidSource db s op).table j).isSome := by
  cases op with
  | submit task =>
    simp only [sysStep, start_import, tlookup_tableInsert]
    split <;> simp [h]
  | deliver msg =>
    simp only [sysStep]
    split
    · exact h
    · simp only [applyMessage_fst]
      cases htl : tlookup s.table msg.job with
      | none => exact h
      | some entry =>
        rw [tlookup_setStatus]
        split <;> simp_all

theorem sysRun_append (uuidSource : Nat → ImportJobId) (db : DBOracle)
    (s : SysState) (l₁ l₂ : List Op) :
    sysRun uuidSource db s (l₁ ++ l₂) = sysRun uuidSource db (sysRun uuidSource db s l₁) l₂ := by
  simp [sysRun, List.foldl_append]

theorem sysRun_tlookup_isSome (uuidSource : Nat → ImportJobId) (db : DBOracle)
    (s : SysState) (ops : List Op) (j : ImportJobId)
    (h : (tlookup s.table j).isSome) :
    (tlookup (sysRun uuidSource db s ops).table j).isSome := by
  induction ops generalizing s with
  | nil => exact h
  | cons op rest ih =>
    exact ih _ (sysStep_tlookup_isSome uuidSource db s op j h)

/-! ## Unfolding lemmas for the system model -/

theorem start_import_fst (uuid : ImportJobId) (t : Table) (task : ImportJob) :
    (start_import uuid t task).1 = .ok uuid := rfl

theorem start_import_table (uuid : ImportJobId) (t : Table) (task : ImportJob) :
    (start_import uuid t task).2.1 = tableInsert t uuid { task := task, status := .Queued } := rfl

theorem start_import_spawn (uuid : ImportJobId) (t : Table) (task : ImportJob) :
    (start_import uuid t task).2.2 = (uuid, task) := rfl

theorem sysStep_submit (u : Nat → ImportJobId) (db : DBOracle) (s : SysState)
    (task : ImportJob) :
    sysStep u db s (.submit task) =
      { table := tableInsert s.table (u s.drawn) { task := task, status := .Queued },
        drawn := s.drawn + 1, dead := s.dead,
        issued := s.issued ++ [u s.drawn], applied := s.applied } := rfl

theorem sysStep_deliver_dead (u : Nat → ImportJobId) (db : DBOracle) (s : SysState)
    (msg : Message) (h : s.dead = true) :
    sysStep u db s (.deliver msg) = s := by
  simp [sysStep, h]

theorem sysStep_deliver_alive (u : Nat → ImportJobId) (db : DBOracle) (s : SysState)
    (msg : Message) (h : s.dead = false) :
    sysStep u db s (.deliver msg) =
      { table := (applyMessage db s.table msg).1, drawn := s.drawn,
        dead := (applyMessage db s.table msg).2.isSome, issued := s.issued,
        applied :=
          if (tlookup s.table msg.job).isSome then s.applied ++ [msg]
          else s.applied } := by
  simp [sysStep, h]

/-- Generic invariant combinator: a property preserved by every step holds
after every run. -/
theorem sysRun_inv (u : Nat → ImportJobId) (db : DBOracle) (P : SysState → Prop)
    (hstep : ∀ s op, P s → P (sysStep u db s op)) (s : SysState) (ops : List Op)
    (h : P s) : P (sysRun u db s ops) := by
  induction ops generalizing s with
  | nil => exact h
  | cons op rest ih => exact ih _ (hstep s op h)

/-! ## State invariants -/

theorem tableIssuedInv_init : TableIssuedInv initState := by
  intro j
  simp [initState, tlookup]

theorem sysStep_tableIssuedInv (u : Nat → ImportJobId) (db : DBOracle)
    (s : SysState) (op : Op) (h : TableIssuedInv s) :
    TableIssuedInv (sysStep u db s op) := by
  cases op with
  | submit task =>
    intro j
    rw [sysStep_submit]
    simp only [tlookup_tableInsert]
    by_cases hj : j = u s.drawn
    · simp [hj]
    · simp [hj, h j]
  | deliver msg =>
    intro j
    cases hd : s.dead with
    | true => rw [sysStep_deliver_dead u db s msg hd]; exact h j
    | false =>
      rw [sysStep_deliver_alive u db s msg hd]
      simp only [applyMessage_fst]
      cases htl : tlookup s.table msg.job with
      | none => exact h j
      | some e =>
        rw [tlookup_setStatus]
        by_cases hj : j = msg.job
        · subst hj
          rw [if_pos rfl, htl]
          have hmem : msg.job ∈ s.issued := (h msg.job).mp (by rw [htl]; rfl)
          simp [hmem]
        · rw [if_neg hj]; exact h j

theorem issuedRangeInv_init (u : Nat → ImportJobId) : IssuedRangeInv u initState := by
  simp [IssuedRangeInv, initState]

theorem sysStep_issuedRangeInv (u : Nat → ImportJobId) (db : DBOracle)
    (s : SysState) (op : Op) (h : IssuedRangeInv u s) :
    IssuedRangeInv u (sysStep u db s op) := by
  cases op with
  | submit task =>
    rw [IssuedRangeInv] at h
    rw [IssuedRangeInv, sysStep_submit]
    simp only []
    rw [List.range_succ, List.map_append, List.map_cons, List.map_nil, h]
  | deliver msg =>
    rw [IssuedRangeInv] at h ⊢
    cases hd : s.dead with
    | true => rw [sysStep_deliver_dead u db s msg hd]; exact h
    | false => rw [sysStep_deliver_alive u db s msg hd]; exact h

theorem sysRun_tableIssuedInv (u : Nat → ImportJobId) (db : DBOracle) (ops : List Op) :
    TableIssuedInv (sysRun u db initState ops) :=
  sysRun_inv u db TableIssuedInv (sysStep_tableIssuedInv u db) initState ops
    tableIssuedInv_init

theorem sysRun_issuedRangeInv (u : Nat → ImportJobId) (db : DBOracle) (ops : List Op) :
    IssuedRangeInv u (sysRun u db initState ops) :=
  sysRun_inv u db (IssuedRangeInv u) (sysStep_issuedRangeInv u db) initState ops
    (issuedRangeInv_init u)

theorem tlookup_isSome_of_mem (t : Table) (kv : ImportJobId × JobEntry)
    (h : kv ∈ t) : (tlookup t kv.1).isSome := by
  induction t with
  | nil => cases h
  | cons hd rest ih =>
    by_cases hk : hd.1 = kv.1
    · simp [tlookup, hk]
    · rcases List.mem_cons.mp h with h1 | h1
      · exact absurd (h1 ▸ rfl) hk
      · simp only [tlookup, if_neg hk]
        exact ih h1

theorem keysDrawnInv_init (u : Nat → ImportJobId) : KeysDrawnInv u initState := by
  intro j h
  simp [initState, tlookup] at h

theorem sysStep_keysDrawnInv (u : Nat → ImportJobId) (db : DBOracle)
    (s : SysState) (op : Op) (h : KeysDrawnInv u s) :
    KeysDrawnInv u (sysStep u db s op) := by
  cases op with
  | submit task =>
    intro j hj
    rw [sysStep_submit] at hj ⊢
    rw [tlookup_tableInsert] at hj
    by_cases he : j = u s.drawn
    · exact ⟨s.drawn, Nat.lt_succ_self _, he.symm⟩
    · rw [if_neg he] at hj
      rcases h j hj with ⟨k, hk, hu⟩
      exact ⟨k, Nat.lt_succ_of_lt hk, hu⟩
  | deliver msg =>
    intro j hj
    cases hd : s.dead with
    | true =>
      rw [sysStep_deliver_dead u db s msg hd] at hj ⊢
      exact h j hj
    | false =>
      rw [sysStep_deliver_alive u db s msg hd] at hj ⊢
      simp only [applyMessage_fst] at hj
      cases htl : tlookup s.table msg.job with
      | none => rw [htl] at hj; exact h j hj
      | some e =>
        rw [htl, tlookup_setStatus] at hj
        by_cases he : j = msg.job
        · rw [he] at hj ⊢
          exact h msg.job (by rw [htl]; rfl)
        · rw [if_neg he] at hj
          exact h j hj

theorem sysRun_keysDrawnInv (u : Nat → ImportJobId) (db : DBOracle) (ops : List Op) :
    KeysDrawnInv u (sysRun u db initState ops) :=
  sysRun_inv u db (KeysDrawnInv u) (sysStep_keysDrawnInv u db) initState ops
    (keysDrawnInv_init u)

/-- One step preserves every stored entry (same id, same task) and never
shrinks the table, provided the uuid stream is injective and every table key
was drawn from it. -/
theorem sysStep_append_only (u : Nat → ImportJobId) (db : DBOracle)
    (h_inj : Function.Injective u) (s : SysState) (hkeys : KeysDrawnInv u s)
    (op : Op) :
    (∀ id entry, tlookup s.table id = some entry →
      ∃ entry', tlookup (sysStep u db s op).table id = some entry' ∧
        entry'.task = entry.task) ∧
    s.table.length ≤ (sysStep u db s op).table.length := by
  cases op with
  | submit task =>
    have hfresh : ∀ kv ∈ s.table, kv.1 ≠ u s.drawn := by
      intro kv hkv he
      rcases hkeys kv.1 (tlookup_isSome_of_mem s.table kv hkv) with ⟨k, hk, hu⟩
      rw [he] at hu
      exact absurd (h_inj hu) (Nat.ne_of_lt hk)
    have hfil : s.table.filter (fun kv => kv.1 ≠ u s.drawn) = s.table :=
      List.filter_eq_self.mpr (fun kv hkv => by simp [hfresh kv hkv])
    constructor
    · intro id entry htl
      have hne : id ≠ u s.drawn := by
        intro he
        rcases hkeys id (by rw [htl]; rfl) with ⟨k, hk, hu⟩
        rw [he] at hu
        exact absurd (h_inj hu) (Nat.ne_of_lt hk)
      refine ⟨entry, ?_, rfl⟩
      rw [sysStep_submit]
      rw [tlookup_tableInsert, if_neg hne]
      exact htl
    · rw [sysStep_submit]
      simp only [tableInsert, hfil, List.length_cons]
      exact Nat.le_succ _
  | deliver msg =>
    cases hd : s.dead with
    | true =>
      rw [sysStep_deliver_dead u db s msg hd]
      exact ⟨fun id entry h => ⟨entry, h, rfl⟩, le_refl _⟩
    | false =>
      rw [sysStep_deliver_alive u db s msg hd]
      simp only [applyMessage_fst]
      cases htl : tlookup s.table msg.job with
      | none => exact ⟨fun id entry h => ⟨entry, h, rfl⟩, le_refl _⟩
      | some e =>
        constructor
        · intro id entry h
          rw [tlookup_setStatus]
          by_cases he : id = msg.job
          · refine ⟨{ entry with status := msg.newStatus }, ?_, rfl⟩
            rw [if_pos he, h]
            rfl
          · rw [if_neg he]
            exact ⟨entry, h, rfl⟩
        · simp [setStatus]

/-! ## Leading-segment lemmas -/

theorem Leads_refl {α : Type _} (l : List α) : Leads l l :=
  ⟨[], List.append_nil l⟩

theorem Leads_trans {α : Type _} {a b c : List α} (h1 : Leads a b) (h2 : Leads b c) :
    Leads a c := by
  rcases h1 with ⟨t1, ht1⟩
  rcases h2 with ⟨t2, ht2⟩
  exact ⟨t1 ++ t2, by rw [← ht2, ← ht1, List.append_assoc]⟩

theorem Leads_append {α : Type _} (l t : List α) : Leads l (l ++ t) := ⟨t, rfl⟩

theorem Leads_filter {α : Type _} (p : α → Bool) {a b : List α} (h : Leads a b) :
    Leads (a.filter p) (b.filter p) := by
  rcases h with ⟨t, ht⟩
  exact ⟨t.filter p, by rw [← ht, List.filter_append]⟩

theorem Leads_map {α β : Type _} (f : α → β) {a b : List α} (h : Leads a b) :
    Leads (a.map f) (b.map f) := by
  rcases h with ⟨t, ht⟩
  exact ⟨t.map f, by rw [← ht, List.map_append]⟩

theorem Leads_length {α : Type _} {a b : List α} (h : Leads a b) :
    a.length ≤ b.length := by
  rcases h with ⟨t, ht⟩
  rw [← ht, List.length_append]
  exact Nat.le_add_right _ _

theorem Leads_nil {α : Type _} {l : List α} (h : Leads l []) : l = [] := by
  rcases h with ⟨t, ht⟩
  exact List.append_eq_nil.mp ht |>.1

theorem Leads_one {α : Type _} {l : List α} {a : α} (h : Leads l [a]) :
    l = [] ∨ l = [a] := by
  rcases h with ⟨t, ht⟩
  cases l with
  | nil => exact Or.inl rfl
  | cons x xs =>
    rw [List.cons_append] at ht
    injection ht with h1 h2
    subst h1
    have h3 : xs = [] := (List.append_eq_nil.mp h2).1
    subst h3
    exact Or.inr rfl

theorem Leads_two {α : Type _} {l : List α} {a b : α} (h : Leads l [a, b]) :
    l = [] ∨ l = [a] ∨ l = [a, b] := by
  rcases h with ⟨t, ht⟩
  cases l with
  | nil => exact Or.inl rfl
  | cons x xs =>
    rw [List.cons_append] at ht
    injection ht with h1 h2
    subst h1
    rcases Leads_one ⟨t, h2⟩ with h3 | h3 <;> subst h3
    · exact Or.inr (Or.inl rfl)
    · exact Or.inr (Or.inr rfl)

/-! ## Trace bookkeeping lemmas -/

theorem submits_append (l₁ l₂ : List Op) :
    submits (l₁ ++ l₂) = submits l₁ ++ submits l₂ := by
  simp [submits, List.filterMap_append]

theorem delivers_append (l₁ l₂ : List Op) :
    delivers (l₁ ++ l₂) = delivers l₁ ++ delivers l₂ := by
  simp [delivers, List.filterMap_append]

theorem submits_single_submit (t : ImportJob) : submits [Op.submit t] = [t] := rfl

theorem submits_single_deliver (m : Message) : submits [Op.deliver m] = [] := rfl

theorem delivers_single_submit (t : ImportJob) : delivers [Op.submit t] = [] := rfl

theorem delivers_single_deliver (m : Message) : delivers [Op.deliver m] = [m] := rfl

theorem Leads_submits_take (ops : List Op) (j : Nat) :
    Leads (submits (ops.take j)) (submits ops) :=
  ⟨submits (ops.drop j), by rw [← submits_append, List.take_append_drop]⟩

theorem Leads_delivers_take (ops : List Op) (j : Nat) :
    Leads (delivers (ops.take j)) (delivers ops) :=
  ⟨delivers (ops.drop j), by rw [← delivers_append, List.take_append_drop]⟩

theorem getD_append_length {α : Type _} (l t : List α) (a d : α) :
    (l ++ a :: t).getD l.length d = a := by
  induction l with
  | nil => rfl
  | cons x xs ih => simpa [List.getD] using ih

theorem taskAt_of_Leads (pre : List ImportJob) (t : ImportJob)
    (tasks : List ImportJob) (h : Leads (pre ++ [t]) tasks) :
    taskAt tasks pre.length = t := by
  rcases h with ⟨tl, htl⟩
  rw [← htl, taskAt, List.append_assoc]
  exact getD_append_length pre tl t _

theorem lastStatus_append (l : List ImportJobStatus) (x : ImportJobStatus) :
    lastStatus (l ++ [x]) = x := by
  induction l with
  | nil => rfl
  | cons y ys ih =>
    cases ys with
    | nil => rfl
    | cons z zs =>
      have h : lastStatus ((y :: z :: zs) ++ [x]) = lastStatus ((z :: zs) ++ [x]) := rfl
      rw [h]
      exact ih

theorem sysStep_applied_Leads (u : Nat → ImportJobId) (db : DBOracle)
    (s : SysState) (op : Op) : Leads s.applied (sysStep u db s op).applied := by
  cases op with
  | submit task => exact Leads_refl _
  | deliver msg =>
    cases hd : s.dead with
    | true => rw [sysStep_deliver_dead u db s msg hd]; exact Leads_refl _
    | false =>
      rw [sysStep_deliver_alive u db s msg hd]
      simp only []
      split
      · exact Leads_append _ _
      · exact Leads_refl _

theorem sysRun_applied_Leads (u : Nat → ImportJobId) (db : DBOracle)
    (s : SysState) (ops : List Op) : Leads s.applied (sysRun u db s ops).applied := by
  induction ops generalizing s with
  | nil => exact Leads_refl _
  | cons op rest ih =>
    exact Leads_trans (sysStep_applied_Leads u db s op) (ih (sysStep u db s op))

theorem sysStep_drawn_le (u : Nat → ImportJobId) (db : DBOracle)
    (s : SysState) (op : Op) : s.drawn ≤ (sysStep u db s op).drawn := by
  cases op with
  | submit task => exact Nat.le_succ _
  | deliver msg =>
    cases hd : s.dead with
    | true => rw [sysStep_deliver_dead u db s msg hd]
    | false => rw [sysStep_deliver_alive u db s msg hd]

theorem sysRun_drawn_le (u : Nat → ImportJobId) (db : DBOracle)
    (s : SysState) (ops : List Op) : s.drawn ≤ (sysRun u db s ops).drawn := by
  induction ops generalizing s with
  | nil => exact Nat.le_refl _
  | cons op rest ih =>
    exact Nat.le_trans (sysStep_drawn_le u db s op) (ih (sysStep u db s op))

theorem applyMessage_snd_none (db : DBOracle) (t : Table) (m : Message)
    (h : tlookup t m.job = none) :
    applyMessage db t m = (t, some "called Option::unwrap on a None value") := by
  cases m with
  | UpdateStatus job status =>
    simp only [applyMessage]
    rw [show (Message.UpdateStatus job status).job = job from rfl] at h
    rw [h]

/-- The combinational heart of the monotonicity claim: if the applied status
lists `A` (earlier) and `B` (later) are leading segments with
`A ⊑ B ⊑ SW`, where `SW` is the status list a worker can emit
(`[InProgress 0]` or `[InProgress 0, Completed i]`), then the last status
can only move forward in rank, a terminal last status never changes again,
and the last status always has one of the legal shapes. -/
theorem rank_chain (A B SW : List ImportJobStatus)
    (hAB : Leads A B) (hBW : Leads B SW)
    (hW : (∃ i, SW = [.InProgress 0, .Completed i]) ∨ SW = [.InProgress 0]) :
    statusRank (lastStatus A) ≤ statusRank (lastStatus B) ∧
    ((lastStatus A).isTerminal = true → lastStatus B = lastStatus A) ∧
    (lastStatus B = .Queued ∨ lastStatus B = .InProgress 0 ∨
      ∃ i, lastStatus B = .Completed i) := by
  rcases hW with ⟨i, hsw⟩ | hsw
  · subst hsw
    rcases Leads_two hBW with hB | hB | hB <;> subst hB
    · have hA := Leads_nil hAB
      subst hA
      exact ⟨Nat.le_refl _, fun _ => rfl, Or.inl rfl⟩
    · rcases Leads_one hAB with hA | hA <;> subst hA
      · refine ⟨Nat.zero_le _, ?_, Or.inr (Or.inl rfl)⟩
        intro h
        simp [lastStatus, ImportJobStatus.isTerminal] at h
      · exact ⟨Nat.le_refl _, fun _ => rfl, Or.inr (Or.inl rfl)⟩
    · rcases Leads_two hAB with hA | hA | hA <;> subst hA
      · refine ⟨Nat.zero_le _, ?_, Or.inr (Or.inr ⟨i, rfl⟩)⟩
        intro h
        simp [lastStatus, ImportJobStatus.isTerminal] at h
      · refine ⟨?_, ?_, Or.inr (Or.inr ⟨i, rfl⟩)⟩
        · norm_num [lastStatus, statusRank]
        · intro h
          simp [lastStatus, ImportJobStatus.isTerminal] at h
      · exact ⟨Nat.le_refl _, fun _ => rfl, Or.inr (Or.inr ⟨i, rfl⟩)⟩
  · subst hsw
    rcases Leads_one hBW with hB | hB <;> subst hB
    · have hA := Leads_nil hAB
      subst hA
      exact ⟨Nat.le_refl _, fun _ => rfl, Or.inl rfl⟩
    · rcases Leads_one hAB with hA | hA <;> subst hA
      · refine ⟨Nat.zero_le _, ?_, Or.inr (Or.inl rfl)⟩
        intro h
        simp [lastStatus, ImportJobStatus.isTerminal] at h
      · exact ⟨Nat.le_refl _, fun _ => rfl, Or.inr (Or.inl rfl)⟩

theorem sysStep_submit_table (u : Nat → ImportJobId) (db : DBOracle) (s : SysState)
    (task : ImportJob) :
    (sysStep u db s (.submit task)).table =
      tableInsert s.table (u s.drawn) { task := task, status := .Queued } := rfl

theorem sysStep_submit_drawn (u : Nat → ImportJobId) (db : DBOracle) (s : SysState)
    (task : ImportJob) : (sysStep u db s (.submit task)).drawn = s.drawn + 1 := rfl

theorem sysStep_submit_dead (u : Nat → ImportJobId) (db : DBOracle) (s : SysState)
    (task : ImportJob) : (sysStep u db s (.submit task)).dead = s.dead := rfl

theorem sysStep_submit_applied (u : Nat → ImportJobId) (db : DBOracle) (s : SysState)
    (task : ImportJob) : (sysStep u db s (.submit task)).applied = s.applied := rfl

theorem sysStep_deliver_alive_table (u : Nat → ImportJobId) (db : DBOracle)
    (s : SysState) (msg : Message) (h : s.dead = false) :
    (sysStep u db s (.deliver msg)).table = (applyMessage db s.table msg).1 := by
  rw [sysStep_deliver_alive u db s msg h]

theorem sysStep_deliver_alive_drawn (u : Nat → ImportJobId) (db : DBOracle)
    (s : SysState) (msg : Message) (h : s.dead = false) :
    (sysStep u db s (.deliver msg)).drawn = s.drawn := by
  rw [sysStep_deliver_alive u db s msg h]

theorem sysStep_deliver_alive_dead (u : Nat → ImportJobId) (db : DBOracle)
    (s : SysState) (msg : Message) (h : s.dead = false) :
    (sysStep u db s (.deliver msg)).dead = (applyMessage db s.table msg).2.isSome := by
  rw [sysStep_deliver_alive u db s msg h]

theorem sysStep_deliver_alive_applied (u : Nat → ImportJobId) (db : DBOracle)
    (s : SysState) (msg : Message) (h : s.dead = false) :
    (sysStep u db s (.deliver msg)).applied =
      if (tlookup s.table msg.job).isSome then s.applied ++ [msg]
      else s.applied := by
  rw [sysStep_deliver_alive u db s msg h]

/-- The trace invariant holds in every reachable state (uuid stream assumed
injective). -/
theorem traceInv_holds (u : Nat → ImportJobId) (db : DBOracle) (ops : List Op)
    (h_inj : Function.Injective u) (n : Nat) :
    TraceInv u ops n (sysRun u db initState (ops.take n)) := by
  induction n with
  | zero =>
    refine ⟨rfl, Leads_refl _, fun _ => rfl, ?_, ?_⟩
    · intro m hm
      cases hm
    · intro k hk
      exact absurd hk (Nat.not_lt_zero k)
  | succ n ih =>
    obtain ⟨ha, hb, hc, hd, he⟩ := ih
    by_cases hn : n < ops.length
    · have htake : ops.take (n + 1) = ops.take n ++ [ops[n]] := by
        rw [List.take_succ, List.getElem?_eq_getElem hn]
        rfl
      simp only [TraceInv]
      rw [htake, sysRun_append]
      set s := sysRun u db initState (ops.take n) with hs
      have hrun1 : sysRun u db s [ops[n]] = sysStep u db s ops[n] := rfl
      rw [hrun1]
      cases hop : ops[n] with
      | submit t =>
        rw [sysStep_submit_table, sysStep_submit_drawn, sysStep_submit_dead,
          sysStep_submit_applied, submits_append, submits_single_submit,
          delivers_append, delivers_single_submit, List.append_nil]
        refine ⟨?_, hb, hc, ?_, ?_⟩
        · rw [List.length_append, ha]
          rfl
        · intro m hm
          rcases hd m hm with ⟨k, hk, hku⟩
          exact ⟨k, Nat.lt_succ_of_lt hk, hku⟩
        · intro k hk
          by_cases hke : k = s.drawn
          · subst hke
            rw [tlookup_tableInsert, if_pos rfl]
            have hts : Leads (submits (ops.take n) ++ [t]) (submits ops) := by
              have h0 := Leads_submits_take ops (n + 1)
              rw [htake, submits_append, hop, submits_single_submit] at h0
              exact h0
            have htask : taskAt (submits ops) s.drawn = t := by
              have h1 := taskAt_of_Leads (submits (ops.take n)) t (submits ops) hts
              rw [← ha] at h1
              exact h1
            have hfil : s.applied.filter (fun m => m.job = u s.drawn) = [] := by
              rw [List.filter_eq_nil_iff]
              intro m hm
              rcases hd m hm with ⟨k', hk', hku⟩
              simp only [decide_eq_true_eq]
              rw [hku]
              intro hc2
              exact absurd (h_inj hc2) (Nat.ne_of_lt hk')
            rw [htask, hfil]
            rfl
          · have hk2 : k < s.drawn := Nat.lt_of_le_of_ne (Nat.lt_succ_iff.mp hk) hke
            have hne : u k ≠ u s.drawn := fun hc2 => hke (h_inj hc2)
            rw [tlookup_tableInsert, if_neg hne]
            exact he k hk2
      | deliver msg =>
        rw [submits_append, submits_single_deliver, List.append_nil,
          delivers_append, delivers_single_deliver]
        cases hdead : s.dead with
        | true =>
          rw [sysStep_deliver_dead u db s msg hdead]
          refine ⟨ha, Leads_trans hb (Leads_append _ _), ?_, hd, he⟩
          intro hdf
          rw [hdead] at hdf
          cases hdf
        | false =>
          rw [sysStep_deliver_alive_table u db s msg hdead,
            sysStep_deliver_alive_drawn u db s msg hdead,
            sysStep_deliver_alive_dead u db s msg hdead,
            sysStep_deliver_alive_applied u db s msg hdead]
          cases hlook : tlookup s.table msg.job with
          | none =>
            have happ := applyMessage_snd_none db s.table msg hlook
            have happlied : (if (none : Option JobEntry).isSome then s.applied ++ [msg]
                else s.applied) = s.applied := rfl
            rw [happ, happlied]
            refine ⟨ha, Leads_trans hb (Leads_append _ _), ?_, hd, he⟩
            intro hdf
            simp at hdf
          | some entry =>
            have happ : (applyMessage db s.table msg).1 =
                setStatus s.table msg.job msg.newStatus := by
              rw [applyMessage_fst, hlook]
            have happlied : (if (some entry).isSome then s.applied ++ [msg]
                else s.applied) = s.applied ++ [msg] := rfl
            have heq : s.applied = delivers (ops.take n) := hc hdead
            have hksome : (tlookup s.table msg.job).isSome := by rw [hlook]; rfl
            have hkd : KeysDrawnInv u s := sysRun_keysDrawnInv u db (ops.take n)
            rcases hkd msg.job hksome with ⟨k0, hk0, hk0u⟩
            rw [happ, happlied]
            refine ⟨ha, ?_, ?_, ?_, ?_⟩
            · rw [heq]
              exact Leads_refl _
            · intro _
              rw [heq]
            · intro m hm
              rcases List.mem_append.mp hm with hm1 | hm1
              · exact hd m hm1
              · rw [List.mem_singleton.mp hm1]
                exact ⟨k0, hk0, hk0u.symm⟩
            · intro k hk
              rw [tlookup_setStatus]
              by_cases hke : u k = msg.job
              · rw [if_pos hke, he k hk]
                have hfil : (s.applied ++ [msg]).filter (fun m => m.job = u k) =
                    s.applied.filter (fun m => m.job = u k) ++ [msg] := by
                  rw [List.filter_append]
                  congr 1
                  simp [hke.symm]
                rw [hfil, List.map_append]
                simp only [List.map_cons, List.map_nil]
                rw [lastStatus_append]
                rfl
              · rw [if_neg hke, he k hk]
                have hfil : (s.applied ++ [msg]).filter (fun m => m.job = u k) =
                    s.applied.filter (fun m => m.job = u k) := by
                  rw [List.filter_append]
                  have h2 : [msg].filter (fun m => m.job = u k) = [] := by
                    simp only [List.filter]
                    have h3 : ¬(msg.job = u k) := fun hc2 => hke hc2.symm
                    simp [h3]
                  rw [h2, List.append_nil]
                rw [hfil]
    · have hle : ops.length ≤ n := Nat.le_of_not_lt hn
      have h1 : ops.take (n + 1) = ops.take n := by
        rw [List.take_of_length_le hle, List.take_of_length_le (Nat.le_succ_of_le hle)]
      simp only [TraceInv]
      rw [h1]
      exact ⟨ha, hb, hc, hd, he⟩

/-! ## Claim theorems -/

/-- C6: every `start_import` call returns `Ok` with the fresh id, has already
inserted `{task, status: Queued}` into the job table at that id before the
worker (bound to exactly that id and task) is spawned and before the id is
returned — `start_import` computes its returned table without consulting any
fetcher, so it never waits on fetch completion — and consequently a
`get_import_status` on the returned id after the submission, and after any
further sequence of orchestrator steps, never finds the id absent. -/
theorem start_import_queued_visible (u : Nat → ImportJobId) (db : DBOracle)
    (s : SysState) (task : ImportJob) (ops : List Op) :
    (start_import (u s.drawn) s.table task).1 = .ok (u s.drawn) ∧
    (start_import (u s.drawn) s.table task).2.2 = (u s.drawn, task) ∧
    tlookup (sysStep u db s (.submit task)).table (u s.drawn) =
      some { task := task, status := .Queued } ∧
    get_import_status (sysStep u db s (.submit task)).table (u s.drawn) =
      .ok .Queued ∧
    ∃ st, get_import_status
        (sysRun u db (sysStep u db s (.submit task)) ops).table (u s.drawn) = .ok st := by
  have htl : tlookup (sysStep u db s (.submit task)).table (u s.drawn) =
      some { task := task, status := .Queued } := by
    rw [sysStep_submit]
    simp [tlookup_tableInsert]
  refine ⟨rfl, rfl, htl, by simp [get_import_status, htl], ?_⟩
  have h1 : (tlookup (sysStep u db s (.submit task)).table (u s.drawn)).isSome := by
    rw [htl]; rfl
  have h2 := sysRun_tlookup_isSome u db _ ops _ h1
  rcases Option.isSome_iff_exists.mp h2 with ⟨e, he⟩
  exact ⟨e.status, by simp [get_import_status, he]⟩

/-- C7: in every reachable orchestrator state, `get_import_status` answers
with the error (`"oopsie, no data"` in the source, the spec's `NotFound`)
exactly for ids that no submission ever issued, and for any stored entry it
returns exactly that entry's current status.  The query is a pure read: it
is total (never panics) and returns no modified table. -/
theorem get_import_status_not_found_iff (u : Nat → ImportJobId) (db : DBOracle)
    (ops : List Op) (id : ImportJobId) :
    (get_import_status (sysRun u db initState ops).table id =
        .error "oopsie, no data" ↔ id ∉ (sysRun u db initState ops).issued) ∧
    (∀ entry, tlookup (sysRun u db initState ops).table id = some entry →
      get_import_status (sysRun u db initState ops).table id = .ok entry.status) := by
  have hinv := sysRun_tableIssuedInv u db ops id
  constructor
  · constructor
    · intro he hmem
      have hsome := hinv.mpr hmem
      rcases Option.isSome_iff_exists.mp hsome with ⟨e, hee⟩
      rw [get_import_status, hee] at he
      cases he
    · intro hnm
      cases htl : tlookup (sysRun u db initState ops).table id with
      | some e =>
        exact absurd (hinv.mp (by rw [htl]; rfl)) hnm
      | none =>
        rw [get_import_status, htl]
  · intro entry h
    rw [get_import_status, h]

/-- Witness for C7 at a concrete input: after one submission with id 0,
`get_import_status 0` returns the stored `Queued` status, and
`get_import_status 1` is the not-found error since id 1 was never issued. -/
theorem get_import_status_not_found_iff_witness :
    get_import_status
        (sysRun (fun n => n) dbOkAlways initState
          [.submit (.DISK { path := { repr := "/tmp/a.bin" } })]).table 0 =
      .ok .Queued ∧
    get_import_status
        (sysRun (fun n => n) dbOkAlways initState
          [.submit (.DISK { path := { repr := "/tmp/a.bin" } })]).table 1 =
      .error "oopsie, no data" := by
  constructor
  · exact (get_import_status_not_found_iff (fun n => n) dbOkAlways
      [.submit (.DISK { path := { repr := "/tmp/a.bin" } })] 0).2
      { task := .DISK { path := { repr := "/tmp/a.bin" } }, status := .Queued } rfl
  · exact (get_import_status_not_found_iff (fun n => n) dbOkAlways
      [.submit (.DISK { path := { repr := "/tmp/a.bin" } })] 1).1.mpr
      (by simp [sysRun, sysStep, initState, List.foldl])

/-- C9: submissions return pairwise-distinct ids: provided the uuid stream
never repeats a value (the collision-freeness of `Uuid::new_v4`, which is
the only uniqueness mechanism the code has), the list of ids returned by any
sequence of submissions, however interleaved with deliveries, has no
duplicates. -/
theorem issued_ids_nodup (u : Nat → ImportJobId) (db : DBOracle)
    (h_inj : Function.Injective u) (ops : List Op) :
    (sysRun u db initState ops).issued.Nodup := by
  have h := sysRun_issuedRangeInv u db ops
  rw [IssuedRangeInv] at h
  rw [h]
  exact (List.nodup_range _).map h_inj

/-- Witness for C9 at a concrete input: with the identity uuid stream
(injective) and two submissions, the issued ids `[0, 1]` are distinct. -/
theorem issued_ids_nodup_witness :
    Function.Injective (fun n : Nat => n) ∧
    (sysRun (fun n => n) dbOkAlways initState
        [.submit (.DISK { path := { repr := "/tmp/a.bin" } }),
         .submit (.DISK { path := { repr := "/tmp/b.bin" } })]).issued.Nodup :=
  ⟨fun _ _ h => h,
    issued_ids_nodup (fun n => n) dbOkAlways (fun _ _ h => h)
      [.submit (.DISK { path := { repr := "/tmp/a.bin" } }),
       .submit (.DISK { path := { repr := "/tmp/b.bin" } })]⟩

/-- C10: `start_import` accepts every `ImportJob` without validating the
locator and always returns `Ok` — its error branch is unreachable — and the
HTTP handler `import_model`, which `unwrap`s that result, therefore also
succeeds on every posted locator. -/
theorem start_import_never_errors (uuid : ImportJobId) (table : Table)
    (task : ImportJob) (locator : Locator) :
    (start_import uuid table task).1 = .ok uuid ∧
    ∃ r, import_model uuid table locator = .ok r ∧ r.1 = uuid := by
  refine ⟨rfl, ?_⟩
  cases locator <;> exact ⟨_, rfl, rfl⟩

/-- C2 (code evaluation at the failing input): for the Disk locator
`/tmp/missing.bin` — whether or not such a file exists, since `import_disk`
consults nothing — the worker emits `InProgress` followed by
`Completed{info=Some("/tmp/missing.bin")}` and no panic; and on no input
does any worker ever emit a `Failed` message (the code never constructs the
`Failed` variant). -/
theorem do_import_disk_missing_path_completes :
    do_import (fun _ => .error "No such file or directory") 0
        (.DISK { path := { repr := "/tmp/missing.bin" } }) =
      ([.UpdateStatus 0 (.InProgress 0),
        .UpdateStatus 0 (.Completed (some "/tmp/missing.bin"))], none) ∧
    (∀ fetchHF task_id task,
      ((do_import fetchHF task_id task).1.filter
          (fun m => m.newStatus.isFailed)).length = 0) := by
  refine ⟨rfl, ?_⟩
  intro fetchHF task_id task
  cases task with
  | DISK locator => rfl
  | HF locator =>
    simp only [do_import]
    cases h : import_hf fetchHF locator with
    | error e => simp [Message.newStatus, ImportJobStatus.isFailed]
    | ok p => simp [Message.newStatus, ImportJobStatus.isFailed]

/-- C3 (code evaluation at the failing input): when the HF fetch fails, the
worker panics on the `unwrap` after emitting only `InProgress`: the list of
messages it managed to send contains no terminal message at all, so the job
is left permanently `InProgress`. -/
theorem do_import_hf_fetch_failure_no_terminal :
    do_import (fun _ => .error "request failed") 7
        (.HF { repo := "meta-llama/Llama-2-7b", file := { repr := "model.gguf" } }) =
      ([.UpdateStatus 7 (.InProgress 0)], some "request failed") ∧
    ((do_import (fun _ => .error "request failed") 7
        (.HF { repo := "meta-llama/Llama-2-7b",
               file := { repr := "model.gguf" } })).1.filter
        (fun m => m.newStatus.isTerminal)).length = 0 :=
  ⟨rfl, rfl⟩

/-- C1 counterexample: with a failing registry, handling job 0's `Completed`
message leaves job 0 `Completed` but panics the status-apply task
(`register_model(...).unwrap()` — the failure is not logged-and-ignored), so
job 1's pending `Completed` message is never applied: the loop does NOT
continue with subsequent messages, contradicting the claim. -/
theorem registry_failure_halts_loop_cex :
    (runLoop dbFailAlways
        [(0, { task := .DISK { path := { repr := "/tmp/a.bin" } },
               status := .InProgress 0 }),
         (1, { task := .DISK { path := { repr := "/tmp/b.bin" } },
               status := .InProgress 0 })]
        [.UpdateStatus 0 (.Completed (some "/tmp/a.bin")),
         .UpdateStatus 1 (.Completed (some "/tmp/b.bin"))]).2 =
      some "db write failed" ∧
    get_import_status
        (runLoop dbFailAlways
          [(0, { task := .DISK { path := { repr := "/tmp/a.bin" } },
                 status := .InProgress 0 }),
           (1, { task := .DISK { path := { repr := "/tmp/b.bin" } },
                 status := .InProgress 0 })]
          [.UpdateStatus 0 (.Completed (some "/tmp/a.bin")),
           .UpdateStatus 1 (.Completed (some "/tmp/b.bin"))]).1 0 =
      .ok (.Completed (some "/tmp/a.bin")) ∧
    get_import_status
        (runLoop dbFailAlways
          [(0, { task := .DISK { path := { repr := "/tmp/a.bin" } },
                 status := .InProgress 0 }),
           (1, { task := .DISK { path := { repr := "/tmp/b.bin" } },
                 status := .InProgress 0 })]
          [.UpdateStatus 0 (.Completed (some "/tmp/a.bin")),
           .UpdateStatus 1 (.Completed (some "/tmp/b.bin"))]).1 1 =
      .ok (.InProgress 0) :=
  ⟨rfl, rfl, rfl⟩

/-- C1 amended: if the registry write fails while the status-apply loop is
handling a `Completed` message for a job, the job's status remains
`Completed` — the table write precedes the registry call and is never
reverted — but the failure is not merely logged: the `unwrap` panics the
status-apply task, which halts with that error and never processes the
remaining messages. -/
theorem registry_failure_completed_not_reverted_loop_dies (db : DBOracle)
    (table : Table) (job : ImportJobId) (entry : JobEntry)
    (file_name p e : String) (rest : List Message)
    (h1 : tlookup table job = some entry)
    (h2 : jobFileName entry.task = some file_name)
    (h3 : db { version := (0, 1, 0), source := jobSource entry.task,
               model := file_name, model_type := .Completion, runtime := .Ggml,
               model_path := p } = .error e) :
    runLoop db table (.UpdateStatus job (.Completed (some p)) :: rest) =
      (setStatus table job (.Completed (some p)), some e) ∧
    tlookup (setStatus table job (.Completed (some p))) job =
      some { task := entry.task, status := .Completed (some p) } := by
  constructor
  · simp only [runLoop, applyMessage, h1, h2, h3]
  · rw [tlookup_setStatus]
    simp [h1]

/-- Witness for the amended C1 at a concrete input. -/
theorem registry_failure_completed_not_reverted_loop_dies_witness :
    runLoop dbFailAlways
        [(0, { task := .DISK { path := { repr := "/tmp/a.bin" } },
               status := .InProgress 0 })]
        [.UpdateStatus 0 (.Completed (some "/tmp/a.bin"))] =
      (setStatus
          [(0, { task := .DISK { path := { repr := "/tmp/a.bin" } },
                 status := .InProgress 0 })]
          0 (.Completed (some "/tmp/a.bin")), some "db write failed") ∧
    tlookup
        (setStatus
          [(0, { task := .DISK { path := { repr := "/tmp/a.bin" } },
                 status := .InProgress 0 })]
          0 (.Completed (some "/tmp/a.bin"))) 0 =
      some { task := .DISK { path := { repr := "/tmp/a.bin" } },
             status := .Completed (some "/tmp/a.bin") } :=
  registry_failure_completed_not_reverted_loop_dies dbFailAlways
    [(0, { task := .DISK { path := { repr := "/tmp/a.bin" } },
           status := .InProgress 0 })]
    0 { task := .DISK { path := { repr := "/tmp/a.bin" } },
        status := .InProgress 0 }
    "a.bin" "/tmp/a.bin" "db write failed" [] rfl rfl rfl

/-- C4 counterexample: with a registry that always succeeds, applying job
0's `Completed` message — whose locator path `/` has no file name, so the
loop's `file_name().unwrap()` panics — halts the status-apply task, and job
1's pending `Completed` message is never applied: one job's message
processing stopped status updates for another job, contradicting the
claim. -/
theorem completed_message_halts_all_jobs_cex :
    (runLoop dbOkAlways
        [(0, { task := .DISK { path := { repr := "/" } },
               status := .InProgress 0 }),
         (1, { task := .DISK { path := { repr := "/tmp/b.bin" } },
               status := .InProgress 0 })]
        [.UpdateStatus 0 (.Completed (some "/")),
         .UpdateStatus 1 (.Completed (some "/tmp/b.bin"))]).2 =
      some "called Option::unwrap on a None value" ∧
    get_import_status
        (runLoop dbOkAlways
          [(0, { task := .DISK { path := { repr := "/" } },
                 status := .InProgress 0 }),
           (1, { task := .DISK { path := { repr := "/tmp/b.bin" } },
                 status := .InProgress 0 })]
          [.UpdateStatus 0 (.Completed (some "/")),
           .UpdateStatus 1 (.Completed (some "/tmp/b.bin"))]).1 1 =
      .ok (.InProgress 0) :=
  ⟨rfl, rfl⟩

/-- C4 amended: worker failures are isolated per job — every message a
worker emits targets its own job id, so a worker's panic touches no other
job's state — and a panic inside a spawned task does not terminate the
orchestrator process (submissions still work and are still visible to reads
after the status-apply task has died).  However, the status-apply loop is a
single task: a failure while it handles ONE message (a missing table entry,
a locator path with no file name, a `Completed` without info, or a registry
error) halts the processing of ALL subsequent messages, for every job. -/
theorem failure_isolation_amended :
    (∀ fetchHF task_id task, ∀ m ∈ (do_import fetchHF task_id task).1,
      m.job = task_id) ∧
    (∀ (u : Nat → ImportJobId) (db : DBOracle) (s : SysState) (task : ImportJob),
      s.dead = true →
      get_import_status (sysStep u db s (.submit task)).table (u s.drawn) =
        .ok .Queued) ∧
    (∀ (db : DBOracle) (t : Table) (m : Message) (t' : Table) (e : String)
      (rest : List Message), applyMessage db t m = (t', some e) →
      runLoop db t (m :: rest) = (t', some e)) := by
  refine ⟨?_, ?_, ?_⟩
  · intro fetchHF task_id task m hm
    cases task with
    | DISK locator =>
      simp only [do_import, List.mem_cons, List.not_mem_nil, or_false] at hm
      rcases hm with h | h <;> rw [h] <;> rfl
    | HF locator =>
      simp only [do_import] at hm
      cases h : import_hf fetchHF locator with
      | error e =>
        rw [h] at hm
        simp only [List.mem_cons, List.not_mem_nil, or_false] at hm
        rw [hm]; rfl
      | ok p =>
        rw [h] at hm
        simp only [List.mem_cons, List.not_mem_nil, or_false] at hm
        rcases hm with h2 | h2 <;> rw [h2] <;> rfl
  · intro u db s task _
    rw [sysStep_submit]
    have := tlookup_tableInsert s.table (u s.drawn) (u s.drawn)
      { task := task, status := .Queued }
    simp only [if_pos rfl] at this
    simp [get_import_status, this]
  · intro db t m t' e rest h
    simp only [runLoop, h]

/-- Witness for the amended C4 at concrete inputs: a worker message targets
its own job; a submission is visible after the loop has died; a panicking
message stops the loop with the remaining messages unprocessed. -/
theorem failure_isolation_amended_witness :
    (Message.UpdateStatus 5 (.InProgress 0)).job = 5 ∧
    get_import_status
        (sysStep (fun n => n) dbOkAlways
          { table := [], drawn := 0, dead := true, issued := [], applied := [] }
          (.submit (.DISK { path := { repr := "/tmp/a.bin" } }))).table 0 =
      .ok .Queued ∧
    runLoop dbOkAlways [] [.UpdateStatus 0 .Queued, .UpdateStatus 1 .Queued] =
      ([], some "called Option::unwrap on a None value") :=
  ⟨failure_isolation_amended.1 (fun _ => .error "x") 5
      (.DISK { path := { repr := "/tmp/a.bin" } })
      (.UpdateStatus 5 (.InProgress 0)) (by simp [do_import]),
    failure_isolation_amended.2.1 (fun n => n) dbOkAlways
      { table := [], drawn := 0, dead := true, issued := [], applied := [] }
      (.DISK { path := { repr := "/tmp/a.bin" } }) rfl,
    failure_isolation_amended.2.2 dbOkAlways [] (.UpdateStatus 0 .Queued) []
      "called Option::unwrap on a None value" [.UpdateStatus 1 .Queued] rfl⟩

/-- C5: for every submitted job, the statuses stored in the job table over
time follow `Queued → InProgress* → {Completed|Failed}`.  Hypotheses model
the system's actual message traffic: the uuid stream is injective
(`Uuid::new_v4` collision-freeness), and for each submitted job the
messages delivered to the status-apply loop for its id form a leading
segment of its worker's emission list (per-sender mpsc FIFO order).  Then,
between any earlier prefix (`n` operations) and any later prefix (`m`
operations) of the run, a job's stored status only moves forward in rank,
a terminal status never changes again, and every stored status is one of
`Queued`, `InProgress 0`, or `Completed i`. -/
theorem status_transitions_monotone (u : Nat → ImportJobId) (db : DBOracle)
    (fetchHF : FetchOracle) (ops : List Op)
    (h_inj : Function.Injective u)
    (hvalid : ∀ k, k < (submits ops).length →
      Leads ((delivers ops).filter (fun ms => ms.job = u k))
        (do_import fetchHF (u k) (taskAt (submits ops) k)).1)
    (n m : Nat) (hnm : n ≤ m) (id : ImportJobId) (entry entry' : JobEntry)
    (h1 : tlookup (sysRun u db initState (ops.take n)).table id = some entry)
    (h2 : tlookup (sysRun u db initState (ops.take m)).table id = some entry') :
    statusRank entry.status ≤ statusRank entry'.status ∧
    (entry.status.isTerminal = true → entry'.status = entry.status) ∧
    (entry'.status = .Queued ∨ entry'.status = .InProgress 0 ∨
      ∃ i, entry'.status = .Completed i) := by
  have hkd := sysRun_keysDrawnInv u db (ops.take n)
  rcases hkd id (by rw [h1]; rfl) with ⟨k, hk, hku⟩
  subst hku
  obtain ⟨han, hbn, hcn, hdn, hen⟩ := traceInv_holds u db ops h_inj n
  obtain ⟨ham, hbm, hcm, hdm, hem⟩ := traceInv_holds u db ops h_inj m
  have hdec : ops.take m = ops.take n ++ (ops.drop n).take (m - n) := by
    have hadd : n + (m - n) = m := Nat.add_sub_cancel' hnm
    rw [← hadd, List.take_add, Nat.add_sub_cancel_left]
  have hrunm : sysRun u db initState (ops.take m) =
      sysRun u db (sysRun u db initState (ops.take n)) ((ops.drop n).take (m - n)) := by
    rw [hdec, sysRun_append]
  have hdrawn : (sysRun u db initState (ops.take n)).drawn ≤
      (sysRun u db initState (ops.take m)).drawn := by
    rw [hrunm]
    exact sysRun_drawn_le u db _ _
  have hkm : k < (sysRun u db initState (ops.take m)).drawn :=
    Nat.lt_of_lt_of_le hk hdrawn
  have he1 := hen k hk
  have he2 := hem k hkm
  rw [h1] at he1
  rw [h2] at he2
  have hentry := Option.some.inj he1
  have hentry' := Option.some.inj he2
  have happ : Leads (sysRun u db initState (ops.take n)).applied
      (sysRun u db initState (ops.take m)).applied := by
    rw [hrunm]
    exact sysRun_applied_Leads u db _ _
  have hAB : Leads
      (((sysRun u db initState (ops.take n)).applied.filter
          (fun ms => ms.job = u k)).map Message.newStatus)
      (((sysRun u db initState (ops.take m)).applied.filter
          (fun ms => ms.job = u k)).map Message.newStatus) :=
    Leads_map _ (Leads_filter _ happ)
  have hklen : k < (submits ops).length := by
    have hlen1 := Leads_length (Leads_submits_take ops n)
    rw [han] at hk
    omega
  have hBW : Leads
      (((sysRun u db initState (ops.take m)).applied.filter
          (fun ms => ms.job = u k)).map Message.newStatus)
      ((do_import fetchHF (u k) (taskAt (submits ops) k)).1.map Message.newStatus) :=
    Leads_map _ (Leads_trans
      (Leads_filter _ (Leads_trans hbm (Leads_delivers_take ops m)))
      (hvalid k hklen))
  have hshape :
      (∃ i, (do_import fetchHF (u k) (taskAt (submits ops) k)).1.map Message.newStatus
          = [.InProgress 0, .Completed i]) ∨
      (do_import fetchHF (u k) (taskAt (submits ops) k)).1.map Message.newStatus
          = [.InProgress 0] := by
    cases htask : taskAt (submits ops) k with
    | DISK locator => exact Or.inl ⟨locator.path.toStr, rfl⟩
    | HF locator =>
      cases hf : fetchHF locator with
      | error e =>
        refine Or.inr ?_
        simp [do_import, import_hf, PathBuf.toStr, hf, Message.newStatus]
      | ok p =>
        refine Or.inl ⟨p.toStr, ?_⟩
        simp [do_import, import_hf, PathBuf.toStr, hf, Message.newStatus]
  have hchain := rank_chain _ _ _ hAB hBW hshape
  rw [hentry, hentry']
  exact hchain

/-- Witness for C5 at a concrete input: one Disk submission (id 0) followed
by the delivery of its worker's two messages; between the prefix of 2
operations (status `InProgress 0`) and the prefix of 3 operations (status
`Completed`), the status moved forward and has a legal shape. -/
theorem status_transitions_monotone_witness :
    statusRank (ImportJobStatus.InProgress 0) ≤
      statusRank (ImportJobStatus.Completed (some "/tmp/a.bin")) ∧
    ((ImportJobStatus.InProgress 0).isTerminal = true →
      ImportJobStatus.Completed (some "/tmp/a.bin") = ImportJobStatus.InProgress 0) ∧
    (ImportJobStatus.Completed (some "/tmp/a.bin") = ImportJobStatus.Queued ∨
     ImportJobStatus.Completed (some "/tmp/a.bin") = ImportJobStatus.InProgress 0 ∨
     ∃ i, ImportJobStatus.Completed (some "/tmp/a.bin") = ImportJobStatus.Completed i) :=
  status_transitions_monotone (fun j => j) dbOkAlways
    (fun _ => .ok { repr := "/x" })
    [.submit (.DISK { path := { repr := "/tmp/a.bin" } }),
     .deliver (.UpdateStatus 0 (.InProgress 0)),
     .deliver (.UpdateStatus 0 (.Completed (some "/tmp/a.bin")))]
    (fun _ _ h => h)
    (by
      intro k hk
      have hk1 : k < 1 := hk
      have hk0 : k = 0 := Nat.lt_one_iff.mp hk1
      subst hk0
      exact ⟨[], by decide⟩)
    2 3 (by omega) 0
    { task := .DISK { path := { repr := "/tmp/a.bin" } }, status := .InProgress 0 }
    { task := .DISK { path := { repr := "/tmp/a.bin" } },
      status := .Completed (some "/tmp/a.bin") }
    rfl rfl

/-- C8: the job table is append-only: provided the uuid stream never repeats
(so a submission cannot silently overwrite an existing entry), every stored
entry survives each further step with its id and its task unchanged — no
operation removes an entry — and the size of the mapping returned by
`get_all_job_status` never decreases from one step to the next. -/
theorem job_table_append_only (u : Nat → ImportJobId) (db : DBOracle)
    (h_inj : Function.Injective u) (ops : List Op) (n : Nat) :
    (∀ id entry,
      tlookup (sysRun u db initState (ops.take n)).table id = some entry →
      ∃ entry',
        tlookup (sysRun u db initState (ops.take (n + 1))).table id = some entry' ∧
        entry'.task = entry.task) ∧
    (get_all_job_status (sysRun u db initState (ops.take n)).table).length ≤
      (get_all_job_status (sysRun u db initState (ops.take (n + 1))).table).length := by
  simp only [get_all_job_status, List.length_map]
  by_cases hn : n < ops.length
  · have htake : ops.take (n + 1) = ops.take n ++ [ops[n]] := by
      rw [List.take_succ, List.getElem?_eq_getElem hn]
      rfl
    rw [htake, sysRun_append]
    have hstep := sysStep_append_only u db h_inj (sysRun u db initState (ops.take n))
      (sysRun_keysDrawnInv u db (ops.take n)) ops[n]
    exact hstep
  · have hle : ops.length ≤ n := Nat.le_of_not_lt hn
    rw [List.take_of_length_le hle, List.take_of_length_le (Nat.le_succ_of_le hle)]
    exact ⟨fun id entry h => ⟨entry, h, rfl⟩, le_refl _⟩

/-- Witness for C8 at a concrete input: the identity uuid stream is
injective, and from the run of one submission (`n = 0`, step to `n = 1`
adding a second submission) the stored entry for id 0 survives with its task
intact and the table size does not decrease. -/
theorem job_table_append_only_witness :
    Function.Injective (fun n : Nat => n) ∧
    (∀ id entry,
      tlookup (sysRun (fun n => n) dbOkAlways initState
          (([Op.submit (.DISK { path := { repr := "/tmp/a.bin" } }),
             Op.submit (.DISK { path := { repr := "/tmp/b.bin" } })]).take 0)).table id =
        some entry →
      ∃ entry',
        tlookup (sysRun (fun n => n) dbOkAlways initState
            (([Op.submit (.DISK { path := { repr := "/tmp/a.bin" } }),
               Op.submit (.DISK { path := { repr := "/tmp/b.bin" } })]).take 1)).table id =
          some entry' ∧
        entry'.task = entry.task) ∧
    (get_all_job_status (sysRun (fun n => n) dbOkAlways initState
        (([Op.submit (.DISK { path := { repr := "/tmp/a.bin" } }),
           Op.submit (.DISK { path := { repr := "/tmp/b.bin" } })]).take 0)).table).length ≤
      (get_all_job_status (sysRun (fun n => n) dbOkAlways initState
        (([Op.submit (.DISK { path := { repr := "/tmp/a.bin" } }),
           Op.submit (.DISK { path := { repr := "/tmp/b.bin" } })]).take 1)).table).length :=
  ⟨fun _ _ h => h,
    (job_table_append_only (fun n => n) dbOkAlways (fun _ _ h => h)
      [Op.submit (.DISK { path := { repr := "/tmp/a.bin" } }),
       Op.submit (.DISK { path := { repr := "/tmp/b.bin" } })] 0).1,
    (job_table_append_only (fun n => n) dbOkAlways (fun _ _ h => h)
      [Op.submit (.DISK { path := { repr := "/tmp/a.bin" } }),
       Op.submit (.DISK { path := { repr := "/tmp/b.bin" } })] 0).2⟩

end ModelServer
